import Mathlib

/-!
Verification of RapidPoseLabels (src/process.py and src/src/generate.py)
against its natural-language specification.

The Python code is shallowly embedded over exact rationals: numpy arrays
become Lean lists or total functions, float arithmetic becomes ℚ
arithmetic, and fallible operations return Option.  Each definition below
names the source function (and lines) it embeds.
-/

/-- A 2D keypoint pick: integer pixel coordinates (u, v).  The sentinel
for "not picked" is (-1, -1) (process.py, line 32). -/
abbrev Pick := ℤ × ℤ

/-- A depth map, indexed as dep[v][u] the way process.py line 31 indexes
`dep[pt[1], pt[0]]`. -/
abbrev DepthMap := ℤ → ℤ → ℚ

/-- A 3D point. -/
abbrev Pt3 := ℚ × ℚ × ℚ

/-- Embeds the body of the inner loop of Pose.convert_2Dto3D
(process.py lines 30-40): unproject one pick through the pinhole
intrinsics, returning the 3D point appended to `w` and the flag appended
to `select_vec`.  Invalid slots yield the dense placeholder (0,0,0) with
flag false. -/
def unproj_point (scale fx fy cx cy : ℚ) (dep : DepthMap) (pt : Pick) :
    Pt3 × Bool :=
  let z : ℚ := dep pt.2 pt.1 * (1 / scale)
  if pt ≠ ((-1 : ℤ), (-1 : ℤ)) ∧ z ≠ 0 then
    ((((pt.1 : ℚ) - cx) * (z / fx), ((pt.2 : ℚ) - cy) * (z / fy), z), true)
  else
    (((0 : ℚ), (0 : ℚ), (0 : ℚ)), false)

/-- Embeds Pose.convert_2Dto3D (process.py lines 25-41): iterate over the
scenes, producing the per-scene list of 3D points (`pts_3d` before the
final transpose) and the flat validity vector `select_vec`, appended in
scene-major, keypoint-minor order. -/
def convert_2Dto3D (scale fx fy cx cy : ℚ) :
    List (DepthMap × List Pick) → List (List Pt3) × List Bool
  | [] => ([], [])
  | (dep, pts) :: rest =>
    let w := pts.map (unproj_point scale fx fy cx cy dep)
    let r := convert_2Dto3D scale fx fy cx cy rest
    (w.map Prod.fst :: r.1, w.map Prod.snd ++ r.2)

/-- Embeds the slice `output_vec[:len_ts]` of Pose.compute
(process.py lines 94, 100) where `len_ts = scene_t_ini[1:].size = 3*(S-1)`:
the solved per-scene translations for scenes 1..S-1. -/
def solver_out_ts (S : ℕ) (x : List ℚ) : List ℚ :=
  x.take (3 * (S - 1))

/-- Embeds the slice `output_vec[len_ts:len_ts+len_qs]` of Pose.compute
(process.py lines 95, 101) where `len_qs = scene_q_ini[1:].size = 4*(S-1)`:
the solved per-scene quaternions for scenes 1..S-1. -/
def solver_out_qs (S : ℕ) (x : List ℚ) : List ℚ :=
  (x.drop (3 * (S - 1))).take (4 * (S - 1))

/-- Embeds the slice `output_vec[len_ts+len_qs:]` of Pose.compute
(process.py line 102): the solved flat object model. -/
def solver_out_Ps (S : ℕ) (x : List ℚ) : List ℚ :=
  x.drop (3 * (S - 1) + 4 * (S - 1))

/-- Embeds `input_array['res'][:(num_scenes-1)*3]` of
Annotations.process_input (generate.py line 160). -/
def annot_out_ts (S : ℕ) (x : List ℚ) : List ℚ :=
  x.take ((S - 1) * 3)

/-- Embeds `input_array['res'][(num_scenes-1)*3 : (num_scenes-1)*7]` of
Annotations.process_input (generate.py line 161). -/
def annot_out_qs (S : ℕ) (x : List ℚ) : List ℚ :=
  (x.take ((S - 1) * 7)).drop ((S - 1) * 3)

/-- Embeds `input_array['res'][(num_scenes-1)*7 :]` of
Annotations.process_input (generate.py line 164). -/
def annot_out_Ps (S : ℕ) (x : List ℚ) : List ℚ :=
  x.drop ((S - 1) * 7)

/-- C1: the flat solved vector has the positional layout
[t_1..t_{S-1}] ++ [q_1..q_{S-1}] ++ [model]: the producer in Pose.compute
slices translations from [0, 3(S-1)), quaternions from [3(S-1), 7(S-1)),
and the model from [7(S-1), end), and the consumer in
Annotations.process_input recovers exactly the same three segments at the
same offsets. -/
theorem C1_solved_vector_layout (S : ℕ) (x : List ℚ) (hS : 1 ≤ S) :
    solver_out_ts S x = annot_out_ts S x ∧
    solver_out_qs S x = annot_out_qs S x ∧
    solver_out_Ps S x = annot_out_Ps S x ∧
    (∀ i, (solver_out_ts S x).get? i =
      if i < 3 * (S - 1) then x.get? i else none) ∧
    (∀ i, (solver_out_qs S x).get? i =
      if i < 4 * (S - 1) then x.get? (3 * (S - 1) + i) else none) ∧
    (∀ i, (solver_out_Ps S x).get? i = x.get? (7 * (S - 1) + i)) := by
  refine ⟨?_, ?_, ?_, ?_, ?_, ?_⟩
  · simp [solver_out_ts, annot_out_ts, Nat.mul_comm]
  · have h37 : (S - 1) * 7 - (S - 1) * 3 = 4 * (S - 1) := by omega
    have h3 : (S - 1) * 3 = 3 * (S - 1) := by omega
    rw [solver_out_qs, annot_out_qs, List.drop_take, h37, h3]
  · have h7 : (S - 1) * 7 = 3 * (S - 1) + 4 * (S - 1) := by omega
    rw [solver_out_Ps, annot_out_Ps, h7]
  · intro i
    by_cases h : i < 3 * (S - 1)
    · rw [if_pos h, solver_out_ts, List.get?_take h]
    · rw [if_neg h, solver_out_ts]
      apply List.get?_eq_none.mpr
      calc (x.take (3 * (S - 1))).length ≤ 3 * (S - 1) := by
            simp [List.length_take]
        _ ≤ i := by omega
  · intro i
    by_cases h : i < 4 * (S - 1)
    · rw [if_pos h, solver_out_qs, List.get?_take h, List.get?_drop]
    · rw [if_neg h, solver_out_qs]
      apply List.get?_eq_none.mpr
      calc ((x.drop (3 * (S - 1))).take (4 * (S - 1))).length ≤ 4 * (S - 1) := by
            simp [List.length_take]
        _ ≤ i := by omega
  · intro i
    rw [solver_out_Ps, List.get?_drop]
    congr 1
    omega

/-- With a nonzero scale, the computed depth `z = dep * (1/scale)` is zero
exactly when the raw depth value is zero. -/
theorem z_ne_zero_iff (scale d : ℚ) (hscale : scale ≠ 0) :
    d * (1 / scale) ≠ 0 ↔ d ≠ 0 := by
  constructor
  · intro h h0
    exact h (by rw [h0, zero_mul])
  · intro h
    exact mul_ne_zero h (one_div_ne_zero hscale)

/-- The validity flag appended by convert_2Dto3D for one slot is exactly
"the pick is not the sentinel and the raw depth there is nonzero". -/
theorem unproj_point_snd (scale fx fy cx cy : ℚ) (hscale : scale ≠ 0)
    (dep : DepthMap) (pt : Pick) :
    (unproj_point scale fx fy cx cy dep pt).2 =
      decide (pt ≠ ((-1 : ℤ), (-1 : ℤ)) ∧ dep pt.2 pt.1 ≠ 0) := by
  unfold unproj_point
  by_cases hc : pt ≠ ((-1 : ℤ), (-1 : ℤ)) ∧ dep pt.2 pt.1 ≠ 0
  · rw [if_pos ⟨hc.1, (z_ne_zero_iff scale _ hscale).mpr hc.2⟩,
      decide_eq_true hc]
  · rw [if_neg (fun h => hc ⟨h.1, (z_ne_zero_iff scale _ hscale).mp h.2⟩),
      decide_eq_false hc]

/-- The 3D point appended by convert_2Dto3D for one slot: the claimed
pinhole formulas on valid slots, the dense placeholder (0,0,0) otherwise. -/
theorem unproj_point_fst (scale fx fy cx cy : ℚ) (hscale : scale ≠ 0)
    (dep : DepthMap) (pt : Pick) :
    (unproj_point scale fx fy cx cy dep pt).1 =
      if pt ≠ ((-1 : ℤ), (-1 : ℤ)) ∧ dep pt.2 pt.1 ≠ 0 then
        (((pt.1 : ℚ) - cx) * (dep pt.2 pt.1 * (1 / scale)) / fx,
         ((pt.2 : ℚ) - cy) * (dep pt.2 pt.1 * (1 / scale)) / fy,
         dep pt.2 pt.1 * (1 / scale))
      else ((0 : ℚ), (0 : ℚ), (0 : ℚ)) := by
  unfold unproj_point
  by_cases hc : pt ≠ ((-1 : ℤ), (-1 : ℤ)) ∧ dep pt.2 pt.1 ≠ 0
  · rw [if_pos ⟨hc.1, (z_ne_zero_iff scale _ hscale).mpr hc.2⟩, if_pos hc]
    simp only [Prod.mk.injEq]
    exact ⟨by ring, by ring, trivial⟩
  · rw [if_neg (fun h => hc ⟨h.1, (z_ne_zero_iff scale _ hscale).mp h.2⟩),
      if_neg hc]

/-- C3: for every keypoint slot of every scene, convert_2Dto3D marks the
slot invalid exactly when the pick is the sentinel (-1,-1) or the depth at
that pixel is exactly zero; otherwise it outputs
z = depth*(1/scale), x = (u-cx)*z/fx, y = (v-cy)*z/fy; invalid slots
contribute the placeholder (0,0,0) with flag 0, and the flags are appended
in scene-major, keypoint-minor order. -/
theorem C3_unprojector (scale fx fy cx cy : ℚ) (hscale : scale ≠ 0)
    (scenes : List (DepthMap × List Pick)) :
    (convert_2Dto3D scale fx fy cx cy scenes).2 =
      scenes.flatMap (fun sc => sc.2.map (fun pt =>
        decide (pt ≠ ((-1 : ℤ), (-1 : ℤ)) ∧ sc.1 pt.2 pt.1 ≠ 0))) ∧
    (convert_2Dto3D scale fx fy cx cy scenes).1 =
      scenes.map (fun sc => sc.2.map (fun pt =>
        if pt ≠ ((-1 : ℤ), (-1 : ℤ)) ∧ sc.1 pt.2 pt.1 ≠ 0 then
          (((pt.1 : ℚ) - cx) * (sc.1 pt.2 pt.1 * (1 / scale)) / fx,
           ((pt.2 : ℚ) - cy) * (sc.1 pt.2 pt.1 * (1 / scale)) / fy,
           sc.1 pt.2 pt.1 * (1 / scale))
        else ((0 : ℚ), (0 : ℚ), (0 : ℚ)))) := by
  induction scenes with
  | nil => exact ⟨rfl, rfl⟩
  | cons sc rest ih =>
    obtain ⟨dep, pts⟩ := sc
    refine ⟨?_, ?_⟩
    · simp only [convert_2Dto3D, List.flatMap_cons, List.map_map, ih.1]
      congr 1
      apply List.map_congr_left
      intro pt _
      exact unproj_point_snd scale fx fy cx cy hscale dep pt
    · simp only [convert_2Dto3D, List.map_cons, List.map_map, ih.2]
      congr 1
      apply List.map_congr_left
      intro pt _
      exact unproj_point_fst scale fx fy cx cy hscale dep pt

/-- Witness for C3: one scene whose depth map is constant 4, with the
sentinel pick and the pick (3,2), at scale 2 and unit focal lengths. -/
theorem C3_unprojector_witness :
    (2 : ℚ) ≠ 0 ∧
    (convert_2Dto3D 2 1 1 0 0
        [(fun _ _ => (4 : ℚ), [((-1 : ℤ), (-1 : ℤ)), ((3 : ℤ), (2 : ℤ))])]).2 =
      [(fun _ _ => (4 : ℚ), [((-1 : ℤ), (-1 : ℤ)), ((3 : ℤ), (2 : ℤ))])].flatMap
        (fun sc => sc.2.map (fun pt =>
          decide (pt ≠ ((-1 : ℤ), (-1 : ℤ)) ∧ sc.1 pt.2 pt.1 ≠ 0))) :=
  ⟨by norm_num,
   (C3_unprojector 2 1 1 0 0 (by norm_num)
     [(fun _ _ => (4 : ℚ), [((-1 : ℤ), (-1 : ℤ)), ((3 : ℤ), (2 : ℤ))])]).1⟩

/-- The standard pinhole projection used to state the round-trip property:
u = x*fx/z + cx, v = y*fy/z + cy (spec section 8; the claim's reprojection
formulas). -/
def pinhole_reproject (fx fy cx cy : ℚ) (p : Pt3) : ℚ × ℚ :=
  (p.1 * fx / p.2.2 + cx, p.2.1 * fy / p.2.2 + cy)

/-- C8: unprojection round-trip.  For every pick that is not the sentinel
and every nonzero depth, reprojecting the unprojected 3D point through the
same intrinsics reproduces the pick exactly (exact rational arithmetic
stands in for "to floating tolerance"). -/
theorem C8_unprojection_roundtrip (scale fx fy cx cy : ℚ) (dep : DepthMap)
    (pt : Pick) (hscale : scale ≠ 0) (hfx : fx ≠ 0) (hfy : fy ≠ 0)
    (hpt : pt ≠ ((-1 : ℤ), (-1 : ℤ))) (hdep : dep pt.2 pt.1 ≠ 0) :
    (unproj_point scale fx fy cx cy dep pt).2 = true ∧
    pinhole_reproject fx fy cx cy (unproj_point scale fx fy cx cy dep pt).1 =
      ((pt.1 : ℚ), (pt.2 : ℚ)) := by
  have hz : dep pt.2 pt.1 * (1 / scale) ≠ 0 :=
    mul_ne_zero hdep (one_div_ne_zero hscale)
  refine ⟨?_, ?_⟩
  · unfold unproj_point
    rw [if_pos ⟨hpt, hz⟩]
  · unfold unproj_point pinhole_reproject
    rw [if_pos ⟨hpt, hz⟩]
    have h1 : ((pt.1 : ℚ) - cx) * (dep pt.2 pt.1 * (1 / scale) / fx) * fx /
        (dep pt.2 pt.1 * (1 / scale)) + cx = (pt.1 : ℚ) := by
      field_simp
      ring
    have h2 : ((pt.2 : ℚ) - cy) * (dep pt.2 pt.1 * (1 / scale) / fy) * fy /
        (dep pt.2 pt.1 * (1 / scale)) + cy = (pt.2 : ℚ) := by
      field_simp
      ring
    exact Prod.ext h1 h2

/-- Witness for C8 at scale 2, fx = 5, fy = 7, cx = 3, cy = 4, constant
depth 6 and the pick (10, 20). -/
theorem C8_unprojection_roundtrip_witness :
    ((2 : ℚ) ≠ 0 ∧ (5 : ℚ) ≠ 0 ∧ (7 : ℚ) ≠ 0 ∧
      ((10 : ℤ), (20 : ℤ)) ≠ ((-1 : ℤ), (-1 : ℤ)) ∧ (6 : ℚ) ≠ 0) ∧
    pinhole_reproject 5 7 3 4
        (unproj_point 2 5 7 3 4 (fun _ _ => (6 : ℚ)) ((10 : ℤ), (20 : ℤ))).1 =
      (((10 : ℤ) : ℚ), ((20 : ℤ) : ℚ)) :=
  ⟨⟨by norm_num, by norm_num, by norm_num, by decide, by norm_num⟩,
   (C8_unprojection_roundtrip 2 5 7 3 4 (fun _ _ => (6 : ℚ))
     ((10 : ℤ), (20 : ℤ)) (by norm_num) (by norm_num) (by norm_num)
     (by decide) (by norm_num)).2⟩

/-- Witness for C1 at S = 2 on a concrete 10-element solved vector. -/
theorem C1_solved_vector_layout_witness :
    1 ≤ 2 ∧
    solver_out_ts 2 [1, 2, 3, 4, 5, 6, 7, 8, 9, 10] =
      annot_out_ts 2 [1, 2, 3, 4, 5, 6, 7, 8, 9, 10] :=
  ⟨by decide,
   (C1_solved_vector_layout 2 [1, 2, 3, 4, 5, 6, 7, 8, 9, 10] (by decide)).1⟩

/-- Ascending flat indices of the true entries of `flags`, starting the
numbering at `idx`.  With `idx = 0` this is the list of flat indices the
loop of Pose.compute (process.py lines 74-78) places identity blocks at. -/
def validIndicesFrom : List Bool → ℕ → List ℕ
  | [], _ => []
  | b :: rest, idx =>
    if b then idx :: validIndicesFrom rest (idx + 1)
    else validIndicesFrom rest (idx + 1)

/-- Flat indices of the valid flags, ascending. -/
def validIndices (flags : List Bool) : List ℕ :=
  validIndicesFrom flags 0

/-- Embeds `found_kpt_count = len(np.nonzero(self.select_vec)[0])`
(process.py line 66): the number of valid flags. -/
def countTrue (flags : List Bool) : ℕ :=
  flags.count true

/-- Embeds the numpy block assignment
`selection_matrix[row:row+3, (idx*3):(idx*3)+3] = np.eye(3)`
(process.py line 77) on a matrix represented as a total function. -/
def setIdBlock (M : ℕ → ℕ → ℚ) (row col : ℕ) : ℕ → ℕ → ℚ :=
  fun i j =>
    if row ≤ i ∧ i < row + 3 ∧ col ≤ j ∧ j < col + 3 then
      (if i - row = j - col then 1 else 0)
    else M i j

/-- Embeds the loop of Pose.compute (process.py lines 74-78): for each
flag, if it is set, write a 3x3 identity block at the current row block
and column block `idx*3`, then advance the row cursor by 3. -/
def smLoop : List Bool → ℕ → ℕ → (ℕ → ℕ → ℚ) → ℕ → ℕ → ℚ
  | [], _, _, M => M
  | b :: rest, idx, row, M =>
    if b then smLoop rest (idx + 1) (row + 3) (setIdBlock M row (idx * 3))
    else smLoop rest (idx + 1) row M

/-- The selection matrix of Pose.compute (process.py lines 67-78), as a
total function on indices; entries outside the allocated
(3V) x (3SK) frame are zero. -/
def selection_matrix (flags : List Bool) : ℕ → ℕ → ℚ :=
  smLoop flags 0 0 (fun _ _ => 0)

/-- Embeds the allocated shape
`np.zeros((found_kpt_count*3, total_kpt_count*3))` (process.py line 67). -/
def selection_matrix_shape (flags : List Bool) : ℕ × ℕ :=
  (countTrue flags * 3, flags.length * 3)

/-- Matrix-vector product of the selection matrix with a dense residual
vector of length `3 * flags.length`, as in the solver residual
`selection_matrix . vec(...)` (spec section 4.4). -/
def smMulVec (flags : List Bool) (x : ℕ → ℚ) (i : ℕ) : ℚ :=
  ∑ j ∈ Finset.range (flags.length * 3), selection_matrix flags i j * x j

/-- The entry the row-block machinery of smLoop should produce at local
row `i` and absolute column `j`, given the remaining valid indices `vi`:
inside the 3-column window of block `i / 3` it is the identity pattern,
outside every window it is undefined (none). -/
def relEntry (vi : List ℕ) (i j : ℕ) : Option ℚ :=
  if i / 3 < vi.length ∧ vi.getD (i / 3) 0 * 3 ≤ j ∧
      j < vi.getD (i / 3) 0 * 3 + 3 then
    some (if i % 3 = j - vi.getD (i / 3) 0 * 3 then 1 else 0)
  else none

/-- Shifting relEntry past one consumed block. -/
theorem relEntry_cons (a : ℕ) (vi : List ℕ) (i j : ℕ) (h : 3 ≤ i) :
    relEntry (a :: vi) i j = relEntry vi (i - 3) j := by
  obtain ⟨k, rfl⟩ : ∃ k, i = k + 3 := ⟨i - 3, by omega⟩
  simp [relEntry, Nat.add_div_right, Nat.add_mod_right, Nat.add_sub_cancel,
    List.getD_cons_succ, Nat.add_lt_add_iff_right]

/-- Characterization of the selection-matrix building loop: starting at
row cursor `row` with column numbering `idx` over matrix `M`, the result
agrees with `relEntry` on rows at and after the cursor and leaves `M`
unchanged elsewhere. -/
theorem smLoop_apply (flags : List Bool) :
    ∀ (idx row : ℕ) (M : ℕ → ℕ → ℚ) (i j : ℕ),
    smLoop flags idx row M i j =
      if row ≤ i then
        (relEntry (validIndicesFrom flags idx) (i - row) j).getD (M i j)
      else M i j := by
  induction flags with
  | nil =>
    intro idx row M i j
    simp [smLoop, validIndicesFrom, relEntry]
  | cons b rest ih =>
    intro idx row M i j
    cases b with
    | false =>
      simpa [smLoop, validIndicesFrom] using ih (idx + 1) row M i j
    | true =>
      rw [show smLoop (true :: rest) idx row M =
        smLoop rest (idx + 1) (row + 3) (setIdBlock M row (idx * 3)) from by
          simp [smLoop]]
      rw [ih (idx + 1) (row + 3) (setIdBlock M row (idx * 3)) i j]
      rw [show validIndicesFrom (true :: rest) idx =
        idx :: validIndicesFrom rest (idx + 1) from by simp [validIndicesFrom]]
      rcases lt_or_le i row with hlt | hge
      · rw [if_neg (by omega), if_neg (by omega)]
        unfold setIdBlock
        rw [if_neg (by omega)]
      · rcases lt_or_le i (row + 3) with hlt3 | hge3
        · rw [if_neg (by omega), if_pos hge]
          have hdiv : (i - row) / 3 = 0 := Nat.div_eq_of_lt (by omega)
          have hmod : (i - row) % 3 = i - row := Nat.mod_eq_of_lt (by omega)
          unfold setIdBlock relEntry
          rw [hdiv, hmod]
          simp only [List.getD_cons_zero, List.length_cons]
          by_cases hj : idx * 3 ≤ j ∧ j < idx * 3 + 3
          · have hcond1 : row ≤ i ∧ i < row + 3 ∧ idx * 3 ≤ j ∧
                j < idx * 3 + 3 := ⟨hge, by omega, hj.1, hj.2⟩
            have hcond2 : 0 < (validIndicesFrom rest (idx + 1)).length + 1 ∧
                idx * 3 ≤ j ∧ j < idx * 3 + 3 := ⟨by omega, hj.1, hj.2⟩
            rw [if_pos hcond1, if_pos hcond2, Option.getD_some]
          · have hcond1 : ¬(row ≤ i ∧ i < row + 3 ∧ idx * 3 ≤ j ∧
                j < idx * 3 + 3) := fun h => hj ⟨h.2.2.1, h.2.2.2⟩
            have hcond2 : ¬(0 < (validIndicesFrom rest (idx + 1)).length + 1 ∧
                idx * 3 ≤ j ∧ j < idx * 3 + 3) := fun h => hj ⟨h.2.1, h.2.2⟩
            rw [if_neg hcond1, if_neg hcond2, Option.getD_none]
        · rw [if_pos (by omega), if_pos hge]
          have hM : setIdBlock M row (idx * 3) i j = M i j := by
            unfold setIdBlock
            rw [if_neg (by omega)]
          rw [hM, relEntry_cons idx _ (i - row) j (by omega),
            show i - (row + 3) = i - row - 3 from by omega]

/-- Closed form of the selection matrix: 1 exactly at
(row 3r+a, column 3*validIndices[r]+a) for r below the number of valid
flags, 0 everywhere else. -/
theorem selection_matrix_closed (flags : List Bool) (i j : ℕ) :
    selection_matrix flags i j =
      if i / 3 < (validIndices flags).length ∧
          j = (validIndices flags).getD (i / 3) 0 * 3 + i % 3 then 1
      else 0 := by
  rw [selection_matrix, smLoop_apply flags 0 0, if_pos (Nat.zero_le i),
    Nat.sub_zero]
  unfold relEntry validIndices
  set vi := validIndicesFrom flags 0 with hvi
  set c := vi.getD (i / 3) 0 with hc
  have him : i % 3 < 3 := by omega
  by_cases h1 : i / 3 < vi.length ∧ c * 3 ≤ j ∧ j < c * 3 + 3
  · rw [if_pos h1, Option.getD_some]
    by_cases h2 : i % 3 = j - c * 3
    · rw [if_pos h2, if_pos ⟨h1.1, by omega⟩]
    · rw [if_neg h2, if_neg (fun h => h2 (by omega))]
  · rw [if_neg h1, Option.getD_none,
      if_neg (fun h => h1 ⟨h.1, by omega, by omega⟩)]

/-- Unfolding equation for validIndicesFrom at a true flag. -/
theorem validIndicesFrom_cons_true (rest : List Bool) (idx : ℕ) :
    validIndicesFrom (true :: rest) idx =
      idx :: validIndicesFrom rest (idx + 1) := by
  simp [validIndicesFrom]

/-- Unfolding equation for validIndicesFrom at a false flag. -/
theorem validIndicesFrom_cons_false (rest : List Bool) (idx : ℕ) :
    validIndicesFrom (false :: rest) idx = validIndicesFrom rest (idx + 1) := by
  simp [validIndicesFrom]

/-- Every index collected by validIndicesFrom lies in
[idx, idx + flags.length). -/
theorem validIndicesFrom_mem_bound (flags : List Bool) :
    ∀ (idx a : ℕ), a ∈ validIndicesFrom flags idx →
      idx ≤ a ∧ a < idx + flags.length := by
  induction flags with
  | nil =>
    intro idx a ha
    simp [validIndicesFrom] at ha
  | cons b rest ih =>
    intro idx a ha
    cases b with
    | false =>
      rw [validIndicesFrom_cons_false] at ha
      have := ih (idx + 1) a ha
      simp only [List.length_cons]
      omega
    | true =>
      rw [validIndicesFrom_cons_true, List.mem_cons] at ha
      simp only [List.length_cons]
      rcases ha with h | ha
      · omega
      · have := ih (idx + 1) a ha
        omega

/-- validIndicesFrom collects exactly one index per true flag. -/
theorem validIndicesFrom_length (flags : List Bool) :
    ∀ idx, (validIndicesFrom flags idx).length = countTrue flags := by
  induction flags with
  | nil =>
    intro idx
    rfl
  | cons b rest ih =>
    intro idx
    cases b with
    | false => simp [validIndicesFrom, countTrue, List.count_cons, ih]
    | true => simp [validIndicesFrom, countTrue, List.count_cons, ih]

/-- The collected indices are strictly ascending. -/
theorem validIndicesFrom_sorted (flags : List Bool) :
    ∀ idx, List.Sorted (· < ·) (validIndicesFrom flags idx) := by
  induction flags with
  | nil =>
    intro idx
    exact List.sorted_nil
  | cons b rest ih =>
    intro idx
    cases b with
    | false =>
      simpa [validIndicesFrom] using ih (idx + 1)
    | true =>
      rw [validIndicesFrom_cons_true, List.sorted_cons]
      refine ⟨fun a ha => ?_, ih (idx + 1)⟩
      have := validIndicesFrom_mem_bound rest (idx + 1) a ha
      omega

/-- An in-range element of validIndices is a genuine flag position. -/
theorem validIndices_getD_lt (flags : List Bool) (r : ℕ)
    (h : r < (validIndices flags).length) :
    (validIndices flags).getD r 0 < flags.length := by
  have hmem : (validIndices flags).getD r 0 ∈ validIndices flags := by
    rw [List.getD_eq_getElem?_getD, List.getElem?_eq_getElem h]
    exact List.getElem_mem h
  have := validIndicesFrom_mem_bound flags 0 _ hmem
  omega

/-- Closed form of the masked residual: row 3r+a of the product is the
dense entry at flat position 3*validIndices[r]+a for r below the number
of valid flags, and 0 beyond the allocated rows. -/
theorem smMulVec_apply (flags : List Bool) (x : ℕ → ℚ) (i : ℕ) :
    smMulVec flags x i =
      if i / 3 < (validIndices flags).length then
        x ((validIndices flags).getD (i / 3) 0 * 3 + i % 3)
      else 0 := by
  unfold smMulVec
  by_cases h : i / 3 < (validIndices flags).length
  · rw [if_pos h]
    rw [Finset.sum_eq_single ((validIndices flags).getD (i / 3) 0 * 3 + i % 3)]
    · rw [selection_matrix_closed, if_pos ⟨h, rfl⟩, one_mul]
    · intro b _ hne
      rw [selection_matrix_closed, if_neg (fun hc => hne hc.2), zero_mul]
    · intro habs
      exfalso
      apply habs
      rw [Finset.mem_range]
      have hlt : (validIndices flags).getD (i / 3) 0 < flags.length :=
        validIndices_getD_lt flags (i / 3) h
      omega
  · rw [if_neg h]
    apply Finset.sum_eq_zero
    intro b _
    rw [selection_matrix_closed, if_neg (fun hc => h hc.1), zero_mul]

/-- C2: for every validity vector of length S*K with V true entries, the
selection matrix built by Pose.compute is the (3V) x (3SK) matrix with a
3x3 identity block at ascending row-block r and column-block equal to the
flat index of the r-th true flag, zero elsewhere, and multiplying it by
any dense residual vector yields exactly the 3-vectors at the valid flat
indices, in ascending index order, with entries at invalid indices
contributing nothing. -/
theorem C2_selection_matrix (S K : ℕ) (flags : List Bool) (x : ℕ → ℚ)
    (hlen : flags.length = S * K) :
    selection_matrix_shape flags = (countTrue flags * 3, S * K * 3) ∧
    (validIndices flags).length = countTrue flags ∧
    List.Sorted (· < ·) (validIndices flags) ∧
    (∀ i j, selection_matrix flags i j =
      if i / 3 < countTrue flags ∧
          j = (validIndices flags).getD (i / 3) 0 * 3 + i % 3 then 1
      else 0) ∧
    (∀ r a b, r < countTrue flags → a < 3 → b < 3 →
      selection_matrix flags (r * 3 + a) ((validIndices flags).getD r 0 * 3 + b)
        = if a = b then 1 else 0) ∧
    (∀ i j, countTrue flags * 3 ≤ i → selection_matrix flags i j = 0) ∧
    (∀ i j, S * K * 3 ≤ j → selection_matrix flags i j = 0) ∧
    (∀ i, smMulVec flags x i =
      if i / 3 < countTrue flags then
        x ((validIndices flags).getD (i / 3) 0 * 3 + i % 3)
      else 0) := by
  have hVlen : (validIndices flags).length = countTrue flags :=
    validIndicesFrom_length flags 0
  refine ⟨?_, hVlen, validIndicesFrom_sorted flags 0, ?_, ?_, ?_, ?_, ?_⟩
  · rw [selection_matrix_shape, hlen]
  · intro i j
    rw [selection_matrix_closed, hVlen]
  · intro r a b hr ha hb
    have hdiv : (r * 3 + a) / 3 = r := by omega
    have hmod : (r * 3 + a) % 3 = a := by omega
    rw [selection_matrix_closed, hdiv, hmod, hVlen]
    by_cases hab : a = b
    · rw [if_pos hab, if_pos ⟨hr, by omega⟩]
    · rw [if_neg hab, if_neg (fun hc => hab (by omega))]
  · intro i j hi
    rw [selection_matrix_closed]
    apply if_neg
    intro hc
    rw [hVlen] at hc
    omega
  · intro i j hj
    rw [selection_matrix_closed]
    apply if_neg
    intro hc
    have hlt : (validIndices flags).getD (i / 3) 0 < flags.length :=
      validIndices_getD_lt flags (i / 3) hc.1
    omega
  · intro i
    rw [smMulVec_apply, hVlen]

/-- Witness for C2 on flags [true, false, true] with S = 3, K = 1 and the
residual vector j ↦ j: the shape equality and the identity-block entry at
row-block 1, column-block validIndices[1] = 2, offsets a = 2, b = 2. -/
theorem C2_selection_matrix_witness :
    ([true, false, true] : List Bool).length = 3 * 1 ∧
    selection_matrix_shape [true, false, true] =
      (countTrue [true, false, true] * 3, 3 * 1 * 3) ∧
    selection_matrix [true, false, true] (1 * 3 + 2)
      ((validIndices [true, false, true]).getD 1 0 * 3 + 2) =
      if 2 = 2 then 1 else 0 :=
  ⟨by decide,
   (C2_selection_matrix 3 1 [true, false, true] (fun j => (j : ℚ))
     (by decide)).1,
   (C2_selection_matrix 3 1 [true, false, true] (fun j => (j : ℚ))
     (by decide)).2.2.2.2.1 1 2 2 (by decide) (by decide) (by decide)⟩

/-- Embeds transforms3d.quaternions.quat2mat on a (w, x, y, z) quaternion
given as a list.  The library's FLOAT_EPS guard on the squared norm is
modelled as an exact zero test, which is the only exact-arithmetic
counterpart of the float comparison. -/
def quat2mat (q : List ℚ) : Matrix (Fin 3) (Fin 3) ℚ :=
  let w := q.getD 0 0
  let x := q.getD 1 0
  let y := q.getD 2 0
  let z := q.getD 3 0
  let nq := w * w + x * x + y * y + z * z
  if nq = 0 then 1
  else
    let s := 2 / nq
    let xs := x * s
    let ys := y * s
    let zs := z * s
    Matrix.of ![![1 - (y * ys + z * zs), x * ys - w * zs, x * zs + w * ys],
                ![x * ys + w * zs, 1 - (x * xs + z * zs), y * zs - w * xs],
                ![x * zs - w * ys, y * zs + w * xs, 1 - (x * xs + y * ys)]]

/-- Embeds np.eye(4) as used by Annotations.process_input
(generate.py line 169). -/
def eye4 : Matrix (Fin 4) (Fin 4) ℚ :=
  Matrix.of fun i j => if i = j then 1 else 0

/-- Embeds transforms3d.affines.compose(T, R, np.ones(3)): the rigid 4x4
transform [R t; 0 1] (unit zooms). -/
def tfa_compose (t : List ℚ) (R : Matrix (Fin 3) (Fin 3) ℚ) :
    Matrix (Fin 4) (Fin 4) ℚ :=
  Matrix.of ![![R 0 0, R 0 1, R 0 2, t.getD 0 0],
              ![R 1 0, R 1 1, R 1 2, t.getD 1 0],
              ![R 2 0, R 2 1, R 2 2, t.getD 2 0],
              ![0, 0, 0, 1]]

/-- Embeds the quaternion reordering `[pose[-1]] + pose[3:-1]` of
Pose.transform_points (process.py line 49): the stored w-last quaternion
is rebuilt w-first.  Python raises on an empty pose, hence Option. -/
def pose_quat_wxyz (pose : List ℚ) : Option (List ℚ) :=
  pose.getLast?.map (fun w => w :: (pose.drop 3).dropLast)

/-- Embeds the per-line quaternion reordering of
Annotations.generate_labels (generate.py lines 195 and 205): the line
tokens after the timestamp form cam_pose, and the quaternion passed on is
`[cam_pose[-1]] + cam_pose[3:-1]`. -/
def campose_quat_wxyz (line : List ℚ) : Option (List ℚ) :=
  let cam_pose := line.drop 1
  cam_pose.getLast?.map (fun w => w :: (cam_pose.drop 3).dropLast)

/-- A 3x3 matrix applied to a point. -/
def mat3Vec (M : Matrix (Fin 3) (Fin 3) ℚ) (p : Pt3) : Pt3 :=
  (M 0 0 * p.1 + M 0 1 * p.2.1 + M 0 2 * p.2.2,
   M 1 0 * p.1 + M 1 1 * p.2.1 + M 1 2 * p.2.2,
   M 2 0 * p.1 + M 2 1 * p.2.1 + M 2 2 * p.2.2)

/-- Pointwise sum of two 3D points. -/
def add3 (p q : Pt3) : Pt3 :=
  (p.1 + q.1, p.2.1 + q.2.1, p.2.2 + q.2.2)

/-- Embeds one iteration of Pose.transform_points (process.py
lines 47-50): rotate the scene points by quat2mat of the reordered
quaternion and add the translation `pose[:3]` broadcast over the
points. -/
def transform_points_one (pose : List ℚ) (pts : List Pt3) :
    Option (List Pt3) :=
  (pose_quat_wxyz pose).map (fun q =>
    pts.map (fun p =>
      add3 (mat3Vec (quat2mat q) p)
        (pose.getD 0 0, pose.getD 1 0, pose.getD 2 0)))

/-- Embeds Pose.transform_points (process.py lines 45-51) over the zip of
per-scene points and camera poses. -/
def transform_points (scenes : List (List Pt3)) (cams : List (List ℚ)) :
    List (Option (List Pt3)) :=
  (scenes.zip cams).map (fun sc => transform_points_one sc.2 sc.1)

/-- Embeds the camera-pose composition `cam_T` of
Annotations.generate_labels (generate.py line 205) from one parsed
camera.poses line (timestamp first): tfa.compose of cam_pose[:3] and
quat2mat of the reordered quaternion. -/
def cam_T_of_line (line : List ℚ) : Option (Matrix (Fin 4) (Fin 4) ℚ) :=
  (campose_quat_wxyz line).map (fun q =>
    tfa_compose ((line.drop 1).take 3) (quat2mat q))

/-- C9: every quaternion read from a camera.poses line (w-last storage
tx ty tz qx qy qz qw after the timestamp) is reordered to (w, x, y, z)
before quat2mat is applied, both in Pose.transform_points and in the
camera-pose composition of Annotations.generate_labels. -/
theorem C9_quaternion_reorder (ts tx ty tz qx qy qz qw : ℚ)
    (pts : List Pt3) :
    pose_quat_wxyz [tx, ty, tz, qx, qy, qz, qw] = some [qw, qx, qy, qz] ∧
    transform_points_one [tx, ty, tz, qx, qy, qz, qw] pts =
      some (pts.map (fun p =>
        add3 (mat3Vec (quat2mat [qw, qx, qy, qz]) p) (tx, ty, tz))) ∧
    campose_quat_wxyz [ts, tx, ty, tz, qx, qy, qz, qw] =
      some [qw, qx, qy, qz] ∧
    cam_T_of_line [ts, tx, ty, tz, qx, qy, qz, qw] =
      some (tfa_compose [tx, ty, tz] (quat2mat [qw, qx, qy, qz])) :=
  ⟨rfl, rfl, rfl, rfl⟩

/-- Rows of length 3 of a flat vector, as in reshape((S-1, 3))
(generate.py line 160). -/
def chunk3 : List ℚ → List (List ℚ)
  | a :: b :: c :: rest => [a, b, c] :: chunk3 rest
  | _ => []

/-- Rows of length 4 of a flat vector, as in reshape((S-1, 4))
(generate.py line 161). -/
def chunk4 : List ℚ → List (List ℚ)
  | a :: b :: c :: d :: rest => [a, b, c, d] :: chunk4 rest
  | _ => []

/-- Unfolding equation of chunk3. -/
theorem chunk3_cons (a b c : ℚ) (rest : List ℚ) :
    chunk3 (a :: b :: c :: rest) = [a, b, c] :: chunk3 rest := rfl

/-- Unfolding equation of chunk4. -/
theorem chunk4_cons (a b c d : ℚ) (rest : List ℚ) :
    chunk4 (a :: b :: c :: d :: rest) = [a, b, c, d] :: chunk4 rest := rfl

/-- A vector of length 3m chunks into m rows. -/
theorem chunk3_length : ∀ (m : ℕ) (l : List ℚ), l.length = 3 * m →
    (chunk3 l).length = m := by
  intro m
  induction m with
  | zero =>
    intro l hl
    have hnil : l = [] := List.length_eq_zero.mp (by omega)
    rw [hnil]
    rfl
  | succ n ih =>
    intro l hl
    cases l with
    | nil => simp at hl
    | cons a l1 =>
      cases l1 with
      | nil =>
        simp only [List.length_cons, List.length_nil] at hl
        omega
      | cons b l2 =>
        cases l2 with
        | nil =>
          simp only [List.length_cons, List.length_nil] at hl
          omega
        | cons c rest =>
          rw [chunk3_cons, List.length_cons, ih rest (by
            simp only [List.length_cons] at hl
            omega)]

/-- A vector of length 4m chunks into m rows. -/
theorem chunk4_length : ∀ (m : ℕ) (l : List ℚ), l.length = 4 * m →
    (chunk4 l).length = m := by
  intro m
  induction m with
  | zero =>
    intro l hl
    have hnil : l = [] := List.length_eq_zero.mp (by omega)
    rw [hnil]
    rfl
  | succ n ih =>
    intro l hl
    cases l with
    | nil => simp at hl
    | cons a l1 =>
      cases l1 with
      | nil =>
        simp only [List.length_cons, List.length_nil] at hl
        omega
      | cons b l2 =>
        cases l2 with
        | nil =>
          simp only [List.length_cons, List.length_nil] at hl
          omega
        | cons c l3 =>
          cases l3 with
          | nil =>
            simp only [List.length_cons, List.length_nil] at hl
            omega
          | cons d rest =>
            rw [chunk4_cons, List.length_cons, ih rest (by
              simp only [List.length_cons] at hl
              omega)]

/-- Embeds `out_Ts` of Annotations.process_input (generate.py line 162):
tfa.compose over the zip of the recovered translation rows and quaternion
rows. -/
def annot_out_Ts (S : ℕ) (x : List ℚ) : List (Matrix (Fin 4) (Fin 4) ℚ) :=
  List.zipWith (fun t q => tfa_compose t (quat2mat q))
    (chunk3 (annot_out_ts S x)) (chunk4 (annot_out_qs S x))

/-- Embeds `self.scene_tfs = np.concatenate((np.eye(4)[np.newaxis,:],
out_Ts))` of Annotations.process_input (generate.py line 169). -/
def scene_tfs (S : ℕ) (x : List ℚ) : List (Matrix (Fin 4) (Fin 4) ℚ) :=
  eye4 :: annot_out_Ts S x

/-- C4: scene 0's transform never appears among the solver's free
parameters: the solved-vector segments hold only S-1 translations and S-1
quaternions, and the annotation generator assigns scene 0 the identity
4x4 transform by prepending np.eye(4) to the recovered transforms. -/
theorem C4_gauge_fixing (S K : ℕ) (x : List ℚ) (hS : 1 ≤ S)
    (hx : x.length = 7 * (S - 1) + 3 * K) :
    (solver_out_ts S x).length = 3 * (S - 1) ∧
    (solver_out_qs S x).length = 4 * (S - 1) ∧
    (chunk3 (annot_out_ts S x)).length = S - 1 ∧
    (chunk4 (annot_out_qs S x)).length = S - 1 ∧
    (annot_out_Ts S x).length = S - 1 ∧
    (scene_tfs S x).length = S ∧
    (scene_tfs S x).get? 0 = some eye4 ∧
    eye4 = (1 : Matrix (Fin 4) (Fin 4) ℚ) := by
  have hts : (chunk3 (annot_out_ts S x)).length = S - 1 := by
    apply chunk3_length
    simp only [annot_out_ts, List.length_take]
    omega
  have hqs : (chunk4 (annot_out_qs S x)).length = S - 1 := by
    apply chunk4_length
    simp only [annot_out_qs, List.length_drop, List.length_take]
    omega
  have hTs : (annot_out_Ts S x).length = S - 1 := by
    rw [annot_out_Ts, List.length_zipWith, hts, hqs, Nat.min_self]
  refine ⟨?_, ?_, hts, hqs, hTs, ?_, rfl, ?_⟩
  · simp only [solver_out_ts, List.length_take]
    omega
  · simp only [solver_out_qs, List.length_take, List.length_drop]
    omega
  · rw [scene_tfs, List.length_cons, hTs]
    omega
  · ext i j
    rw [eye4, Matrix.of_apply, Matrix.one_apply]

/-- Witness for C4 at S = 2, K = 1 on a concrete 10-element solved
vector. -/
theorem C4_gauge_fixing_witness :
    1 ≤ 2 ∧
    ([0, 0, 0, 1, 0, 0, 0, 5, 6, 7] : List ℚ).length = 7 * (2 - 1) + 3 * 1 ∧
    (scene_tfs 2 [0, 0, 0, 1, 0, 0, 0, 5, 6, 7]).get? 0 = some eye4 :=
  ⟨by decide, by decide,
   (C4_gauge_fixing 2 1 [0, 0, 0, 1, 0, 0, 0, 5, 6, 7] (by decide)
     (by decide)).2.2.2.2.2.2.1⟩

/-- A Python runtime error raised by the driver code. -/
inductive PyErr where
  | nameError
deriving DecidableEq

/-- Result of the tail of Pose.compute (process.py lines 97-113):
which slices of res.x were bound (the locals out_ts, out_qs, out_Ps /
object_model inside the `if res.success` block), which object models were
passed to a completed visualize_object call, and how the run ended. -/
structure ComputeTailResult where
  extracted : Option (List ℚ × List ℚ × List ℚ)
  visualized : List (List ℚ)
  outcome : Except PyErr Bool

/-- Embeds the tail of Pose.compute (process.py lines 97-113).  On
success the guarded block binds the three slices and the unconditional
`self.visualize_object(..., object_model)` then runs with the solved
model, and `res.success` is returned.  On failure the guarded block is
skipped, so the local `object_model` is never bound: evaluating the
visualization call's argument raises NameError, no slice of the solved
vector is taken, and no visualization runs. -/
def compute_tail (S : ℕ) (success : Bool) (x : List ℚ) : ComputeTailResult :=
  if success then
    { extracted := some (solver_out_ts S x, solver_out_qs S x, solver_out_Ps S x),
      visualized := [solver_out_Ps S x],
      outcome := Except.ok success }
  else
    { extracted := none,
      visualized := [],
      outcome := Except.error PyErr.nameError }

/-- C5: on every run in which res.success is false, the solved model is
discarded (no slice of the solved vector is ever bound) and no
visualization is performed with it; the run aborts with NameError at the
unguarded visualization call instead of returning the boolean. -/
theorem C5_no_use_on_failure (S : ℕ) (x : List ℚ) :
    (compute_tail S false x).extracted = none ∧
    (compute_tail S false x).visualized = [] ∧
    (compute_tail S false x).outcome = Except.error PyErr.nameError :=
  ⟨rfl, rfl, rfl⟩

/-- Embeds `np.savez("saved_gui_output", kpts=self.scene_kpts,
sm=selection_matrix)` (process.py line 80): the archive the solver driver
writes, as a name-indexed association list. -/
def pose_compute_savez {α : Type} (kpts sm : α) : List (String × α) :=
  [("kpts", kpts), ("sm", sm)]

/-- Lookup of a named array in an npz archive. -/
def npz_read {α : Type} (arch : List (String × α)) (key : String) :
    Option α :=
  arch.lookup key

/-- Embeds `self.input_array['ref']` (generate.py lines 81-82). -/
def annotations_ref_read {α : Type} (arch : List (String × α)) : Option α :=
  npz_read arch "ref"

/-- Embeds `self.input_array['res']` (generate.py lines 160-164). -/
def annotations_res_read {α : Type} (arch : List (String × α)) : Option α :=
  npz_read arch "res"

/-- C7 evidence: the archive written by Pose.compute holds exactly the
names `kpts` and `sm`; the names `ref` and `res` the annotation stage
reads are absent, so the documented handoff fails on the code as
written. -/
theorem C7_archive_key_mismatch {α : Type} (kpts sm : α) :
    annotations_ref_read (pose_compute_savez kpts sm) = none ∧
    annotations_res_read (pose_compute_savez kpts sm) = none ∧
    npz_read (pose_compute_savez kpts sm) "kpts" = some kpts ∧
    npz_read (pose_compute_savez kpts sm) "sm" = some sm :=
  ⟨rfl, rfl, rfl, rfl⟩

/-- Image width hard-coded in Annotations (generate.py line 93). -/
def annot_width : ℚ := 640

/-- Image height hard-coded in Annotations (generate.py line 94). -/
def annot_height : ℚ := 480

/-- Bounding-box scale factor hard-coded in Annotations
(generate.py line 97). -/
def annot_bbox_scale : ℚ := 3 / 2

/-- Embeds numpy min over a nonempty coordinate list (keypts.min(0),
generate.py line 141); the empty case is never reached by the callers
and its value 0 is unused by the theorems below. -/
def qmin : List ℚ → ℚ
  | [] => 0
  | a :: t => t.foldl min a

/-- Embeds numpy max over a nonempty coordinate list (keypts.max(0),
generate.py line 142). -/
def qmax : List ℚ → ℚ
  | [] => 0
  | a :: t => t.foldl max a

/-- Embeds `if xmin<0: xmin=0` (generate.py lines 143-144): clamping from
below only. -/
def clamp_low (v : ℚ) : ℚ :=
  if v < 0 then 0 else v

/-- Embeds `if xmax>=(width-1): xmax=(width-1)` (generate.py
lines 145-146): clamping from above only. -/
def clamp_high (b v : ℚ) : ℚ :=
  if v ≥ b then b else v

/-- Embeds the clamped box of Annotations.project3Dto2D (generate.py
lines 141-146): ((xmin, ymin), (xmax, ymax)) after the one-sided
clamps. -/
def bbox_box (w h : ℚ) (keypts : List (ℚ × ℚ)) : (ℚ × ℚ) × (ℚ × ℚ) :=
  ((clamp_low (qmin (keypts.map Prod.fst)),
    clamp_low (qmin (keypts.map Prod.snd))),
   (clamp_high (w - 1) (qmax (keypts.map Prod.fst)),
    clamp_high (h - 1) (qmax (keypts.map Prod.snd))))

/-- Embeds the label tail of Annotations.project3Dto2D (generate.py
lines 147-149): the re-centered bbox_cn (overwriting the keypts.mean(0)
value computed on line 140) and bbox_sd / 200. -/
def bbox_label (w h s : ℚ) (keypts : List (ℚ × ℚ)) : (ℚ × ℚ) × ℚ :=
  let box := bbox_box w h keypts
  (((box.2.1 + box.1.1) / 2, (box.2.2 + box.1.2) / 2),
   max (box.2.1 - box.1.1) (box.2.2 - box.1.2) * s / 200)

/-- Embeds `keypts.mean(0)` (generate.py line 140), the dead first
assignment to bbox_cn: the componentwise mean of the projected points. -/
def keypts_mean (keypts : List (ℚ × ℚ)) : ℚ × ℚ :=
  ((keypts.map Prod.fst).sum / keypts.length,
   (keypts.map Prod.snd).sum / keypts.length)

/-- A left fold of min is a lower bound of its initial value. -/
theorem foldl_min_le_init : ∀ (l : List ℚ) (a : ℚ), l.foldl min a ≤ a := by
  intro l
  induction l with
  | nil => intro a; exact le_refl a
  | cons b t ih =>
    intro a
    calc (b :: t).foldl min a = t.foldl min (min a b) := rfl
      _ ≤ min a b := ih (min a b)
      _ ≤ a := min_le_left a b

/-- A left fold of min is a lower bound of every list element. -/
theorem foldl_min_le_mem : ∀ (l : List ℚ) (a x : ℚ), x ∈ l →
    l.foldl min a ≤ x := by
  intro l
  induction l with
  | nil =>
    intro a x hx
    simp at hx
  | cons b t ih =>
    intro a x hx
    rcases List.mem_cons.mp hx with rfl | hx
    · calc (x :: t).foldl min a = t.foldl min (min a x) := rfl
        _ ≤ min a x := foldl_min_le_init t (min a x)
        _ ≤ x := min_le_right a x
    · exact ih (min a b) x hx

/-- A left fold of min is the initial value or a list element. -/
theorem foldl_min_mem : ∀ (l : List ℚ) (a : ℚ),
    l.foldl min a = a ∨ l.foldl min a ∈ l := by
  intro l
  induction l with
  | nil => intro a; exact Or.inl rfl
  | cons b t ih =>
    intro a
    rcases ih (min a b) with h | h
    · rcases min_choice a b with hm | hm
      · exact Or.inl (by rw [List.foldl_cons, h, hm])
      · exact Or.inr (by rw [List.foldl_cons, h, hm]; exact List.mem_cons_self b t)
    · exact Or.inr (List.mem_cons_of_mem b h)

/-- A left fold of max is an upper bound of its initial value. -/
theorem le_foldl_max_init : ∀ (l : List ℚ) (a : ℚ), a ≤ l.foldl max a := by
  intro l
  induction l with
  | nil => intro a; exact le_refl a
  | cons b t ih =>
    intro a
    calc a ≤ max a b := le_max_left a b
      _ ≤ t.foldl max (max a b) := ih (max a b)
      _ = (b :: t).foldl max a := rfl

/-- A left fold of max is an upper bound of every list element. -/
theorem le_foldl_max_mem : ∀ (l : List ℚ) (a x : ℚ), x ∈ l →
    x ≤ l.foldl max a := by
  intro l
  induction l with
  | nil =>
    intro a x hx
    simp at hx
  | cons b t ih =>
    intro a x hx
    rcases List.mem_cons.mp hx with rfl | hx
    · calc x ≤ max a x := le_max_right a x
        _ ≤ t.foldl max (max a x) := le_foldl_max_init t (max a x)
        _ = (x :: t).foldl max a := rfl
    · exact ih (max a b) x hx

/-- A left fold of max is the initial value or a list element. -/
theorem foldl_max_mem : ∀ (l : List ℚ) (a : ℚ),
    l.foldl max a = a ∨ l.foldl max a ∈ l := by
  intro l
  induction l with
  | nil => intro a; exact Or.inl rfl
  | cons b t ih =>
    intro a
    rcases ih (max a b) with h | h
    · rcases max_choice a b with hm | hm
      · exact Or.inl (by rw [List.foldl_cons, h, hm])
      · exact Or.inr (by rw [List.foldl_cons, h, hm]; exact List.mem_cons_self b t)
    · exact Or.inr (List.mem_cons_of_mem b h)

/-- qmin of a nonempty list is a member. -/
theorem qmin_mem (l : List ℚ) (h : l ≠ []) : qmin l ∈ l := by
  cases l with
  | nil => exact absurd rfl h
  | cons a t =>
    rcases foldl_min_mem t a with hm | hm
    · rw [qmin, hm]; exact List.mem_cons_self a t
    · rw [qmin]; exact List.mem_cons_of_mem a hm

/-- qmin is a lower bound. -/
theorem qmin_le (l : List ℚ) (x : ℚ) (hx : x ∈ l) : qmin l ≤ x := by
  cases l with
  | nil => simp at hx
  | cons a t =>
    rcases List.mem_cons.mp hx with rfl | hx
    · rw [qmin]; exact foldl_min_le_init t x
    · rw [qmin]; exact foldl_min_le_mem t a x hx

/-- qmax of a nonempty list is a member. -/
theorem qmax_mem (l : List ℚ) (h : l ≠ []) : qmax l ∈ l := by
  cases l with
  | nil => exact absurd rfl h
  | cons a t =>
    rcases foldl_max_mem t a with hm | hm
    · rw [qmax, hm]; exact List.mem_cons_self a t
    · rw [qmax]; exact List.mem_cons_of_mem a hm

/-- qmax is an upper bound. -/
theorem le_qmax (l : List ℚ) (x : ℚ) (hx : x ∈ l) : x ≤ qmax l := by
  cases l with
  | nil => simp at hx
  | cons a t =>
    rcases List.mem_cons.mp hx with rfl | hx
    · rw [qmax]; exact le_foldl_max_init t x
    · rw [qmax]; exact le_foldl_max_mem t a x hx

/-- The one-sided lower clamp is a max with 0. -/
theorem clamp_low_eq (v : ℚ) : clamp_low v = max v 0 := by
  rw [clamp_low]
  split_ifs with hv
  · exact (max_eq_right hv.le).symm
  · exact (max_eq_left (not_lt.mp hv)).symm

/-- The one-sided upper clamp is a min with the bound. -/
theorem clamp_high_eq (b v : ℚ) : clamp_high b v = min v b := by
  rw [clamp_high]
  split_ifs with hv
  · exact (min_eq_right hv).symm
  · exact (min_eq_left (not_le.mp hv).le).symm

/-- C6 counterexample: on the projected points (0,0), (0,0), (10,10)
inside a 640x480 image, the center returned by the label computation is
the box midpoint (5, 5), while the mean of the projected points is
(10/3, 10/3): the returned center is not the mean, because line 147 of
generate.py overwrites the mean with the clamped-box midpoint. -/
theorem C6_center_mean_counterexample :
    (bbox_label annot_width annot_height annot_bbox_scale
        [(0, 0), (0, 0), (10, 10)]).1 ≠
      keypts_mean [(0, 0), (0, 0), (10, 10)] := by
  have h1 : (bbox_label annot_width annot_height annot_bbox_scale
      [(0, 0), (0, 0), (10, 10)]).1 = ((5 : ℚ), (5 : ℚ)) := by
    norm_num [bbox_label, bbox_box, qmin, qmax, clamp_low, clamp_high,
      annot_width, annot_height, List.foldl_cons, List.foldl_nil]
  have h2 : keypts_mean [(0, 0), (0, 0), (10, 10)] =
      ((10 / 3 : ℚ), (10 / 3 : ℚ)) := by
    norm_num [keypts_mean]
  rw [h1, h2]
  intro hcontra
  have h5 : (5 : ℚ) = 10 / 3 := congrArg Prod.fst hcontra
  norm_num at h5

/-- C6 amended: for every nonempty set of projected keypoints, the
Policy A label is: box = the axis-aligned per-axis min/max of the points
with xmin, ymin clamped from below to 0 and xmax, ymax clamped from
above to width-1, height-1; center = the midpoint of that clamped box
(not the mean of the points, which is computed and then overwritten);
scale = max(box width, box height) * bbox_scale / 200. -/
theorem C6_policyA_label_amended (w h s : ℚ) (keypts : List (ℚ × ℚ))
    (hne : keypts ≠ []) :
    qmin (keypts.map Prod.fst) ∈ keypts.map Prod.fst ∧
    qmax (keypts.map Prod.fst) ∈ keypts.map Prod.fst ∧
    qmin (keypts.map Prod.snd) ∈ keypts.map Prod.snd ∧
    qmax (keypts.map Prod.snd) ∈ keypts.map Prod.snd ∧
    (∀ p ∈ keypts,
      qmin (keypts.map Prod.fst) ≤ p.1 ∧ p.1 ≤ qmax (keypts.map Prod.fst) ∧
      qmin (keypts.map Prod.snd) ≤ p.2 ∧ p.2 ≤ qmax (keypts.map Prod.snd)) ∧
    bbox_box w h keypts =
      ((max (qmin (keypts.map Prod.fst)) 0,
        max (qmin (keypts.map Prod.snd)) 0),
       (min (qmax (keypts.map Prod.fst)) (w - 1),
        min (qmax (keypts.map Prod.snd)) (h - 1))) ∧
    bbox_label w h s keypts =
      (((min (qmax (keypts.map Prod.fst)) (w - 1) +
          max (qmin (keypts.map Prod.fst)) 0) / 2,
        (min (qmax (keypts.map Prod.snd)) (h - 1) +
          max (qmin (keypts.map Prod.snd)) 0) / 2),
       max (min (qmax (keypts.map Prod.fst)) (w - 1) -
            max (qmin (keypts.map Prod.fst)) 0)
         (min (qmax (keypts.map Prod.snd)) (h - 1) -
            max (qmin (keypts.map Prod.snd)) 0) * s / 200) := by
  have hxs : keypts.map Prod.fst ≠ [] :=
    fun hmap => hne (List.map_eq_nil.mp hmap)
  have hys : keypts.map Prod.snd ≠ [] :=
    fun hmap => hne (List.map_eq_nil.mp hmap)
  refine ⟨qmin_mem _ hxs, qmax_mem _ hxs, qmin_mem _ hys, qmax_mem _ hys,
    ?_, ?_, ?_⟩
  · intro p hp
    exact ⟨qmin_le _ _ (List.mem_map_of_mem Prod.fst hp),
      le_qmax _ _ (List.mem_map_of_mem Prod.fst hp),
      qmin_le _ _ (List.mem_map_of_mem Prod.snd hp),
      le_qmax _ _ (List.mem_map_of_mem Prod.snd hp)⟩
  · simp only [bbox_box, clamp_low_eq, clamp_high_eq]
  · simp only [bbox_label, bbox_box, clamp_low_eq, clamp_high_eq]

/-- Witness for C6 amended on the counterexample's input. -/
theorem C6_policyA_label_amended_witness :
    ([((0 : ℚ), (0 : ℚ)), (0, 0), (10, 10)] : List (ℚ × ℚ)) ≠ [] ∧
    bbox_box 640 480 [((0 : ℚ), (0 : ℚ)), (0, 0), (10, 10)] =
      ((max (qmin ([((0 : ℚ), (0 : ℚ)), (0, 0), (10, 10)].map Prod.fst)) 0,
        max (qmin ([((0 : ℚ), (0 : ℚ)), (0, 0), (10, 10)].map Prod.snd)) 0),
       (min (qmax ([((0 : ℚ), (0 : ℚ)), (0, 0), (10, 10)].map Prod.fst))
          (640 - 1),
        min (qmax ([((0 : ℚ), (0 : ℚ)), (0, 0), (10, 10)].map Prod.snd))
          (480 - 1))) :=
  ⟨List.cons_ne_nil _ _,
   (C6_policyA_label_amended 640 480 (3 / 2)
     [((0 : ℚ), (0 : ℚ)), (0, 0), (10, 10)]
     (List.cons_ne_nil _ _)).2.2.2.2.2.1⟩

/-- C10: in the box computation, xmin and ymin are clamped only from
below (to 0) and xmax and ymax only from above (to width-1 and
height-1); for every input whose projected points all lie beyond the
right image border, the returned box has negative x-extent
(xmax < xmin) and the returned center lies outside
[0, width-1] x [0, height-1]; a single point inside the image yields a
zero-area box with center inside the bounds. -/
theorem C10_one_sided_clamping (w h s : ℚ) (hw : 1 ≤ w) (hh : 1 ≤ h) :
    (∀ v, clamp_low v = max v 0) ∧
    (∀ b v, clamp_high b v = min v b) ∧
    (∀ keypts : List (ℚ × ℚ), keypts ≠ [] →
      (∀ p ∈ keypts, w - 1 < p.1) →
      (bbox_box w h keypts).2.1 < (bbox_box w h keypts).1.1 ∧
      w - 1 < (bbox_label w h s keypts).1.1 ∧
      ¬(0 ≤ (bbox_label w h s keypts).1.1 ∧
        (bbox_label w h s keypts).1.1 ≤ w - 1 ∧
        0 ≤ (bbox_label w h s keypts).1.2 ∧
        (bbox_label w h s keypts).1.2 ≤ h - 1)) ∧
    (∀ p : ℚ × ℚ, 0 ≤ p.1 → p.1 ≤ w - 1 → 0 ≤ p.2 → p.2 ≤ h - 1 →
      bbox_box w h [p] = ((p.1, p.2), (p.1, p.2)) ∧
      (bbox_label w h s [p]).1 = p ∧
      (bbox_label w h s [p]).2 = 0) := by
  refine ⟨clamp_low_eq, clamp_high_eq, ?_, ?_⟩
  · intro keypts hne hall
    have hxs : keypts.map Prod.fst ≠ [] :=
      fun hmap => hne (List.map_eq_nil.mp hmap)
    obtain ⟨pmin, hpmin, hpmin_eq⟩ :=
      List.mem_map.mp (qmin_mem (keypts.map Prod.fst) hxs)
    have hqmin_gt : w - 1 < qmin (keypts.map Prod.fst) := by
      rw [← hpmin_eq]
      exact hall pmin hpmin
    obtain ⟨pmax, hpmax, hpmax_eq⟩ :=
      List.mem_map.mp (qmax_mem (keypts.map Prod.fst) hxs)
    have hqmax_gt : w - 1 < qmax (keypts.map Prod.fst) := by
      rw [← hpmax_eq]
      exact hall pmax hpmax
    have h11 : (bbox_box w h keypts).1.1 = qmin (keypts.map Prod.fst) := by
      show clamp_low (qmin (keypts.map Prod.fst)) = qmin (keypts.map Prod.fst)
      rw [clamp_low_eq]
      exact max_eq_left (by linarith)
    have h21 : (bbox_box w h keypts).2.1 = w - 1 := by
      show clamp_high (w - 1) (qmax (keypts.map Prod.fst)) = w - 1
      rw [clamp_high_eq]
      exact min_eq_right hqmax_gt.le
    have hc1 : (bbox_label w h s keypts).1.1 =
        (w - 1 + qmin (keypts.map Prod.fst)) / 2 := by
      show ((bbox_box w h keypts).2.1 + (bbox_box w h keypts).1.1) / 2 = _
      rw [h21, h11]
    refine ⟨?_, ?_, ?_⟩
    · rw [h21, h11]
      exact hqmin_gt
    · rw [hc1]
      linarith
    · intro hcon
      have hcx := hcon.2.1
      rw [hc1] at hcx
      linarith
  · intro p h0x h1x h0y h1y
    have hb : bbox_box w h [p] = ((p.1, p.2), (p.1, p.2)) := by
      show ((clamp_low p.1, clamp_low p.2),
        (clamp_high (w - 1) p.1, clamp_high (h - 1) p.2)) = _
      rw [clamp_low_eq p.1, clamp_low_eq p.2, clamp_high_eq (w - 1) p.1,
        clamp_high_eq (h - 1) p.2, max_eq_left h0x, max_eq_left h0y,
        min_eq_left h1x, min_eq_left h1y]
    refine ⟨hb, ?_, ?_⟩
    · have hcen : (bbox_label w h s [p]).1 =
          (((bbox_box w h [p]).2.1 + (bbox_box w h [p]).1.1) / 2,
           ((bbox_box w h [p]).2.2 + (bbox_box w h [p]).1.2) / 2) := rfl
      rw [hcen, hb]
      exact Prod.ext (by ring) (by ring)
    · have hsca : (bbox_label w h s [p]).2 =
          max ((bbox_box w h [p]).2.1 - (bbox_box w h [p]).1.1)
            ((bbox_box w h [p]).2.2 - (bbox_box w h [p]).1.2) * s / 200 := rfl
      rw [hsca, hb]
      norm_num

/-- Witness for C10 at the image size 640x480: the lower clamp at -5,
and the degenerate single-point box at (5, 7). -/
theorem C10_one_sided_clamping_witness :
    (1 : ℚ) ≤ 640 ∧ (1 : ℚ) ≤ 480 ∧
    clamp_low (-5) = max (-5) 0 ∧
    bbox_box 640 480 [((5 : ℚ), (7 : ℚ))] =
      (((5 : ℚ), (7 : ℚ)), ((5 : ℚ), (7 : ℚ))) :=
  ⟨by norm_num, by norm_num,
   (C10_one_sided_clamping 640 480 (3 / 2) (by norm_num) (by norm_num)).1 (-5),
   ((C10_one_sided_clamping 640 480 (3 / 2) (by norm_num)
     (by norm_num)).2.2.2 ((5 : ℚ), (7 : ℚ)) (by norm_num) (by norm_num)
     (by norm_num) (by norm_num)).1⟩
